import Mathlib

set_option autoImplicit false

/-!
Shallow embedding of the hlubek/metaprogramming-go repository:
the repository package (InsertProduct, UpdateProduct), the tagged domain
record Product, and the code generator (argument parsing, tag-pattern
matching, change-set type generation, toMap generation, target file name
derivation and file writing).
-/

namespace MetaGo

/-! ### Go maps as association lists with overwrite semantics -/

/-- Assignment into a Go map: overwrite the entry when the key is present,
append it otherwise. -/
def setEntry {α : Type} (m : List (String × α)) (k : String) (v : α) :
    List (String × α) :=
  match m with
  | [] => [(k, v)]
  | (k₀, v₀) :: rest =>
    if k₀ = k then (k, v) :: rest else (k₀, v₀) :: setEntry rest k v

/-- The key list of an association list. -/
def keysAL {α : Type} (m : List (String × α)) : List String :=
  m.map Prod.fst

/-- Lookup in an association list. -/
def lookupAL {α : Type} (m : List (String × α)) (k : String) : Option α :=
  match m with
  | [] => none
  | (k₀, v₀) :: rest => if k₀ = k then some v₀ else lookupAL rest k

/-! ### splitSourceType and argument validation (generator main) -/

/-- Split a character list at its last dot, as strings.LastIndexByte
followed by the two slicings does in splitSourceType; none when the list
has no dot. -/
def splitLastDot : List Char → Option (List Char × List Char)
  | [] => none
  | c :: rest =>
    match splitLastDot rest with
    | some (a, b) => some (c :: a, b)
    | none => if c = '.' then some ([], rest) else none

/-- splitSourceType from the generator: split a qualified name at the last
dot into package path and type name; a dot-free argument is a fatal error. -/
def splitSourceType (sourceType : String) : Except String (String × String) :=
  match splitLastDot sourceType.toList with
  | some (a, b) => .ok (String.mk a, String.mk b)
  | none => .error "expected qualified type as \"pkg/path.MyType\""

/-- Argument validation in the generator main: os.Args must hold exactly
one user argument (len(os.Args) == 2, the first entry being the program
name, so args here models the user arguments), which is then split. -/
def parseArgs (args : List String) : Except String (String × String) :=
  match args with
  | [s] => splitSourceType s
  | _ => .error "expected exactly one argument: <source type>"

/-! ### The tag pattern structColPattern -/

/-- The double-quote character, written by code point to keep character
literals simple. -/
def dquote : Char := Char.ofNat 34

/-- One anchored attempt of the pattern matching a col tag at the head of
the list: the literal letters c, o, l, a colon and a double quote, then a
nonempty run of non-quote characters, then a closing double quote; the run
is the capture. -/
def matchColAt (s : List Char) : Option (List Char) :=
  match s with
  | 'c' :: 'o' :: 'l' :: ':' :: q :: rest =>
    if q = dquote then
      let run := rest.takeWhile (fun ch => ch ≠ dquote)
      if run ≠ [] ∧ (rest.drop run.length).head? = some dquote then
        some run
      else none
    else none
  | _ => none

/-- FindStringSubmatch of structColPattern: the leftmost position where the
anchored pattern matches yields the capture. -/
def findCol : List Char → Option (List Char)
  | [] => none
  | c :: rest =>
    match matchColAt (c :: rest) with
    | some r => some r
    | none => findCol rest

/-! ### go/types struct model -/

/-- The shape of a struct field type as the generator distinguishes them:
a built-in basic type, a named type from some package, or any other shape
(slice, pointer, map, nested struct, ...) carrying the type descriptor the
generator would print for it. -/
inductive GoFieldType : Type
  | basic (name : String)
  | named (pkgPath : String) (name : String)
  | other (typeDesc : String)
deriving DecidableEq, Repr

/-- A struct field as the generator sees it: name, raw tag string, type. -/
structure StructField : Type where
  name : String
  tag : String
  type : GoFieldType
deriving DecidableEq, Repr

/-- Whether a field type falls in one of the two supported shapes. -/
def supportedType : GoFieldType → Bool
  | .basic _ => true
  | .named _ _ => true
  | .other _ => false

/-- The column name extracted from a field's raw tag, as a string. -/
def colOf (f : StructField) : Option String :=
  (findCol f.tag.toList).map String.mk

/-! ### Generated change-set type -/

/-- The type of a generated change-set field: always a pointer, either to a
basic type or to a package-qualified named type. -/
inductive CSType : Type
  | ptrBasic (name : String)
  | ptrNamed (pkgPath : String) (name : String)
deriving DecidableEq, Repr

/-- A field of the generated change-set struct. -/
structure CSField : Type where
  name : String
  type : CSType
deriving DecidableEq, Repr

/-- The change-set field generated for one struct field: the switch over
the field type in the generator's first loop; any shape other than basic
or named is a fatal generation error. -/
def changeSetField (f : StructField) : Except String CSField :=
  match f.type with
  | .basic n => .ok ⟨f.name, .ptrBasic n⟩
  | .named p n => .ok ⟨f.name, .ptrNamed p n⟩
  | .other d => .error ("struct field type not hanled: " ++ d)

/-- The generator's first loop over all struct fields, collecting one
change-set field per struct field and stopping at the first unsupported
field type. -/
def genChangeSetFields : List StructField → Except String (List CSField)
  | [] => .ok []
  | f :: rest =>
    match changeSetField f with
    | .error e => .error e
    | .ok c =>
      match genChangeSetFields rest with
      | .error e => .error e
      | .ok cs => .ok (c :: cs)

/-! ### Generated toMap conversion -/

/-- The static entries of the generated toMap body: one (field name,
column) pair per struct field whose raw tag matches the pattern, in
declaration order; non-matching fields are skipped by the continue. -/
def genToMapEntries (fields : List StructField) : List (String × String) :=
  fields.filterMap (fun f => (colOf f).map (fun col => (f.name, col)))

/-- One runtime step of the generated toMap body on a field paired with
its optional change-set value: for a field whose tag matched, if the value
is set, assign it into the map under the column name; otherwise (or for a
field skipped at generation time) leave the map unchanged. -/
def toMapStep {α : Type} (m : List (String × α)) (p : StructField × Option α) :
    List (String × α) :=
  match colOf p.1, p.2 with
  | some col, some x => setEntry m col x
  | _, _ => m

/-- Runtime semantics of the generated toMap method: start from the empty
map and run the generated if-blocks over the fields in declaration order.
A change-set value is modelled as each field paired with its optional
value. -/
def toMapGen {α : Type} (changeSet : List (StructField × Option α)) :
    List (String × α) :=
  changeSet.foldl toMapStep []

/-- The column names of the fields whose tag matches the pattern and whose
optional value is present, in declaration order. -/
def presentCols {α : Type} : List (StructField × Option α) → List String
  | [] => []
  | (f, v) :: rest =>
    match colOf f, v with
    | some col, some _ => col :: presentCols rest
    | _, _ => presentCols rest

/-- The column names of all fields whose tag matches the pattern,
regardless of the optional value. -/
def allCols {α : Type} : List (StructField × Option α) → List String
  | [] => []
  | (f, _) :: rest =>
    match colOf f with
    | some col => col :: allCols rest
    | none => allCols rest

/-! ### Target file name -/

/-- filepath.Ext: the suffix of the path beginning at the final dot of the
final slash-separated element, empty when that element has no dot. -/
def filepathExt : List Char → List Char
  | [] => []
  | c :: rest =>
    match filepathExt rest with
    | [] => if c = '.' ∧ '/' ∉ rest then '.' :: rest else []
    | e => e

/-- The generated file's name: the invoking file's name with its extension
removed, an underscore, the lowercased source type name and the fixed
suffix. -/
def targetFilename (goFile : String) (sourceTypeName : String) : String :=
  let ext := filepathExt goFile.toList
  let base := goFile.toList.take (goFile.toList.length - ext.length)
  String.mk base ++ "_" ++ sourceTypeName.toLower ++ "_gen.go"

/-! ### The generate function and the file system -/

/-- The in-memory artifact the generator synthesizes: package name, the
machine-generated notice, the change-set type and the static toMap
entries. -/
structure GeneratedFile : Type where
  pkgName : String
  pkgComment : String
  changeSetName : String
  changeSetFields : List CSField
  toMapEntries : List (String × String)
deriving DecidableEq, Repr

/-- The generate function: build the change-set fields (failing on an
unsupported field shape before any output exists), assemble the artifact
and pair it with the deterministically derived target file name.
GOPACKAGE and GOFILE are the two environment hints. -/
def generate (sourceTypeName : String) (structType : List StructField)
    (goPackage : String) (goFile : String) :
    Except String (String × GeneratedFile) :=
  match genChangeSetFields structType with
  | .error e => .error e
  | .ok csFields =>
    .ok (targetFilename goFile sourceTypeName,
      { pkgName := goPackage
        pkgComment := "Code generated by generator, DO NOT EDIT."
        changeSetName := sourceTypeName ++ "ChangeSet"
        changeSetFields := csFields
        toMapEntries := genToMapEntries structType })

/-- Process outcome of one generator invocation after type lookup: exit
code, the written file (name and content) if any, and the diagnostic
printed by failErr if any. -/
def generatorRunResult (sourceTypeName : String) (structType : List StructField)
    (goPackage : String) (goFile : String) :
    Nat × Option (String × GeneratedFile) × Option String :=
  match generate sourceTypeName structType goPackage goFile with
  | .ok out => (0, some out, none)
  | .error e => (1, none, some e)

/-- A file system as a mapping from file names to generated contents. -/
abbrev FS : Type := List (String × GeneratedFile)

/-- Saving a file: overwrite any file of the same name. -/
def writeFS (fs : FS) (name : String) (content : GeneratedFile) : FS :=
  setEntry fs name content

/-- One full generator run against a file system: on success the artifact
is saved under the derived name, on failure nothing is written. -/
def runGenerator (sourceTypeName : String) (structType : List StructField)
    (goPackage : String) (goFile : String) (fs : FS) : FS :=
  match generate sourceTypeName structType goPackage goFile with
  | .ok (fname, content) => writeFS fs fname content
  | .error _ => fs

/-! ### The domain record and the repository package -/

/-- Identifier values, standing in for uuid.UUID. -/
abbrev Uuid : Type := Nat

/-- The values stored in the column mappings handed to the query builder. -/
inductive Value : Type
  | uuid (u : Uuid)
  | str (s : String)
  | int (i : Int)
  | bool (b : Bool)
deriving DecidableEq, Repr

/-- The domain record from domain/product.go. -/
structure Product : Type where
  ID : Uuid
  ArticleNumber : String
  Name : String
  Description : String
  Color : String
  Size : String
  StockAvailability : Int
  PriceCents : Int
  OnSale : Bool
deriving DecidableEq, Repr

/-- The fields of the Product struct with their raw col tags and type
shapes, exactly as declared. -/
def productFields : List StructField :=
  [ ⟨"ID", "col:\"product_id\"", .named "github.com/gofrs/uuid" "UUID"⟩,
    ⟨"ArticleNumber", "col:\"article_number\"", .basic "string"⟩,
    ⟨"Name", "col:\"name\"", .basic "string"⟩,
    ⟨"Description", "col:\"description\"", .basic "string"⟩,
    ⟨"Color", "col:\"color\"", .basic "string"⟩,
    ⟨"Size", "col:\"size\"", .basic "string"⟩,
    ⟨"StockAvailability", "col:\"stock_availability\"", .basic "int"⟩,
    ⟨"PriceCents", "col:\"price_cents\"", .basic "int"⟩,
    ⟨"OnSale", "col:\"on_sale\"", .basic "bool"⟩ ]

/-- The full column mapping InsertProduct hands to the insert builder: the
map literal from the source, one entry per field of the record. -/
def insertProductMap (product : Product) : List (String × Value) :=
  [ ("product_id", .uuid product.ID),
    ("article_number", .str product.ArticleNumber),
    ("name", .str product.Name),
    ("description", .str product.Description),
    ("color", .str product.Color),
    ("size", .str product.Size),
    ("stock_availability", .int product.StockAvailability),
    ("price_cents", .int product.PriceCents),
    ("on_sale", .bool product.OnSale) ]

/-- An update statement as the squirrel builder chain assembles it: target
table, equality-filter column and identifier, and the set map. -/
structure UpdateStatement (α : Type) : Type where
  table : String
  whereCol : String
  whereId : Uuid
  setMap : List (String × α)
deriving DecidableEq, Repr

/-- The statement UpdateProduct builds: Update("gamers") with
Where(Eq, "gamer_id", id) and SetMap of the change-set's toMap result. -/
def updateProductStatement {α : Type} (id : Uuid)
    (changeSetMap : List (String × α)) : UpdateStatement α :=
  { table := "gamers", whereCol := "gamer_id", whereId := id,
    setMap := changeSetMap }

/-- UpdateProduct's error handling after the statement is built: the
execution either fails, or yields a result whose RowsAffected either
fails or yields a count; errors are wrapped exactly as in the source, and
a count other than one is an error of its own. -/
def updateProductFromExec (execResult : Except String (Except String Int)) :
    Option String :=
  match execResult with
  | .error e => some ("executing update: " ++ e)
  | .ok rowsAffectedResult =>
    match rowsAffectedResult with
    | .error e => some ("getting affected rows: " ++ e)
    | .ok rowsAffected =>
      if rowsAffected ≠ 1 then
        some ("update affected " ++ toString rowsAffected ++
          " rows, but expected exactly 1")
      else none

/-! ### Association-list lemmas -/

theorem mem_keysAL_setEntry {α : Type} (m : List (String × α)) (k : String)
    (v : α) (q : String) :
    q ∈ keysAL (setEntry m k v) ↔ q = k ∨ q ∈ keysAL m := by
  induction m with
  | nil => simp [setEntry, keysAL]
  | cons e rest ih =>
    obtain ⟨ek, ev⟩ := e
    by_cases h : ek = k
    · subst h
      simp [setEntry, keysAL]
    · simp only [setEntry, if_neg h, keysAL, List.map_cons, List.mem_cons]
      rw [show (keysAL (setEntry rest k v) = (setEntry rest k v).map Prod.fst) from rfl] at ih
      rw [show (keysAL rest = rest.map Prod.fst) from rfl] at ih
      rw [ih]
      tauto

theorem lookupAL_setEntry_self {α : Type} (m : List (String × α)) (k : String)
    (v : α) :
    lookupAL (setEntry m k v) k = some v := by
  induction m with
  | nil => simp [setEntry, lookupAL]
  | cons e rest ih =>
    obtain ⟨ek, ev⟩ := e
    by_cases h : ek = k
    · subst h
      simp [setEntry, lookupAL]
    · simp [setEntry, lookupAL, h, ih]

theorem lookupAL_setEntry_ne {α : Type} (m : List (String × α)) (k : String)
    (v : α) (q : String) (h : k ≠ q) :
    lookupAL (setEntry m k v) q = lookupAL m q := by
  induction m with
  | nil => simp [setEntry, lookupAL, h]
  | cons e rest ih =>
    obtain ⟨ek, ev⟩ := e
    by_cases hek : ek = k
    · subst hek
      simp [setEntry, lookupAL, h]
    · simp [setEntry, lookupAL, hek, ih]

theorem setEntry_setEntry_same {α : Type} (m : List (String × α)) (k : String)
    (v : α) :
    setEntry (setEntry m k v) k v = setEntry m k v := by
  induction m with
  | nil => simp [setEntry]
  | cons e rest ih =>
    obtain ⟨ek, ev⟩ := e
    by_cases h : ek = k
    · subst h
      simp [setEntry]
    · simp [setEntry, h, ih]

/-! ### splitLastDot lemmas -/

theorem splitLastDot_isSome_iff (l : List Char) :
    (splitLastDot l).isSome = true ↔ '.' ∈ l := by
  induction l with
  | nil => simp [splitLastDot]
  | cons c rest ih =>
    cases h : splitLastDot rest with
    | some p =>
      obtain ⟨a, b⟩ := p
      rw [h] at ih
      simp only [splitLastDot, h, Option.isSome_some, List.mem_cons]
      simp only [Option.isSome_some] at ih
      tauto
    | none =>
      rw [h] at ih
      have ihn : '.' ∉ rest := by
        intro hm
        have := ih.mpr hm
        simp at this
      have hc2 : ∀ hc : ¬ c = '.', ¬ '.' = c := fun hc e => hc e.symm
      by_cases hc : c = '.'
      · subst hc
        simp [splitLastDot, h]
      · simp [splitLastDot, h, if_neg hc, List.mem_cons, ihn, hc2 hc]

theorem splitLastDot_spec (l a b : List Char)
    (h : splitLastDot l = some (a, b)) :
    l = a ++ '.' :: b ∧ '.' ∉ b := by
  induction l generalizing a b with
  | nil => simp [splitLastDot] at h
  | cons c rest ih =>
    cases hr : splitLastDot rest with
    | some p =>
      obtain ⟨a₀, b₀⟩ := p
      simp only [splitLastDot, hr, Option.some.injEq, Prod.mk.injEq] at h
      obtain ⟨ha, hb⟩ := h
      obtain ⟨h1, h2⟩ := ih a₀ b₀ hr
      subst ha
      subst hb
      subst h1
      exact ⟨rfl, h2⟩
    | none =>
      simp only [splitLastDot, hr] at h
      by_cases hc : c = '.'
      · subst hc
        simp at h
        obtain ⟨ha, hb⟩ := h
        subst ha
        subst hb
        refine ⟨rfl, ?_⟩
        have hnot := (splitLastDot_isSome_iff rest).not
        simp [hr] at hnot
        exact hnot
      · simp [if_neg hc] at h

/-! ### Lemmas about the generated toMap semantics -/

theorem foldl_toMapStep_keys {α : Type} (fv : List (StructField × Option α)) :
    ∀ (m : List (String × α)) (k : String),
      (k ∈ keysAL (List.foldl toMapStep m fv) ↔
        k ∈ keysAL m ∨ k ∈ presentCols fv) := by
  induction fv with
  | nil =>
    intro m k
    simp [presentCols]
  | cons p rest ih =>
    intro m k
    obtain ⟨f, v⟩ := p
    rw [List.foldl_cons, ih]
    cases hc : colOf f with
    | none =>
      cases v <;> simp [toMapStep, hc, presentCols]
    | some col =>
      cases v with
      | none => simp [toMapStep, hc, presentCols]
      | some x =>
        simp only [toMapStep, hc, presentCols, List.mem_cons]
        rw [mem_keysAL_setEntry]
        tauto

theorem foldl_toMapStep_lookup_stable {α : Type}
    (fv : List (StructField × Option α)) :
    ∀ (m : List (String × α)) (k : String), k ∉ presentCols fv →
      lookupAL (List.foldl toMapStep m fv) k = lookupAL m k := by
  induction fv with
  | nil =>
    intro m k _
    rfl
  | cons p rest ih =>
    intro m k hk
    obtain ⟨f, v⟩ := p
    rw [List.foldl_cons]
    cases hc : colOf f with
    | none =>
      have hstep : toMapStep m (f, v) = m := by
        cases v <;> simp [toMapStep, hc]
      rw [hstep]
      refine ih m k ?_
      simpa [presentCols, hc] using hk
    | some col =>
      cases v with
      | none =>
        have hstep : toMapStep m (f, none) = m := by simp [toMapStep, hc]
        rw [hstep]
        refine ih m k ?_
        simpa [presentCols, hc] using hk
      | some x =>
        have hk2 : ¬k = col ∧ k ∉ presentCols rest := by
          simpa [presentCols, hc] using hk
        have hstep : toMapStep m (f, some x) = setEntry m col x := by
          simp [toMapStep, hc]
        rw [hstep, ih _ k hk2.2,
          lookupAL_setEntry_ne m col x k (fun e => hk2.1 e.symm)]

theorem presentCols_subset_allCols {α : Type}
    (fv : List (StructField × Option α)) :
    ∀ k ∈ presentCols fv, k ∈ allCols fv := by
  induction fv with
  | nil => simp [presentCols, allCols]
  | cons p rest ih =>
    obtain ⟨f, v⟩ := p
    intro k hk
    cases hc : colOf f with
    | none =>
      cases v <;> simp [presentCols, allCols, hc] at hk ⊢ <;> exact ih k hk
    | some col =>
      cases v with
      | none =>
        simp [presentCols, allCols, hc] at hk ⊢
        exact Or.inr (ih k hk)
      | some x =>
        simp [presentCols, allCols, hc] at hk ⊢
        rcases hk with h1 | h2
        · exact Or.inl h1
        · exact Or.inr (ih k h2)

theorem foldl_toMapStep_lookup_found {α : Type}
    (fv : List (StructField × Option α)) :
    ∀ (m : List (String × α)) (f : StructField) (x : α) (c : String),
      (f, some x) ∈ fv → colOf f = some c → (allCols fv).Nodup →
      lookupAL (List.foldl toMapStep m fv) c = some x := by
  induction fv with
  | nil =>
    intro m f x c hmem _ _
    simp at hmem
  | cons p rest ih =>
    intro m f x c hmem hc hnodup
    obtain ⟨g, w⟩ := p
    rw [List.foldl_cons]
    rcases List.mem_cons.mp hmem with heq | hmem₀
    · rw [Prod.mk.injEq] at heq
      obtain ⟨hg, hw⟩ := heq
      subst hg
      subst hw
      have hstep : toMapStep m (f, some x) = setEntry m c x := by
        simp [toMapStep, hc]
      have hcmem : c ∉ allCols rest := by
        simp [allCols, hc, List.nodup_cons] at hnodup
        exact hnodup.1
      have hcpres : c ∉ presentCols rest :=
        fun hp => hcmem (presentCols_subset_allCols rest c hp)
      rw [hstep, foldl_toMapStep_lookup_stable rest _ c hcpres,
        lookupAL_setEntry_self]
    · have hnr : (allCols rest).Nodup := by
        cases hcg : colOf g with
        | none => simpa [allCols, hcg] using hnodup
        | some col =>
          simp [allCols, hcg, List.nodup_cons] at hnodup
          exact hnodup.2
      exact ih _ f x c hmem₀ hc hnr

theorem foldl_toMapStep_all_none {α : Type}
    (fv : List (StructField × Option α)) :
    ∀ (m : List (String × α)), (∀ p ∈ fv, p.2 = none) →
      List.foldl toMapStep m fv = m := by
  induction fv with
  | nil =>
    intro m _
    rfl
  | cons p rest ih =>
    intro m hall
    obtain ⟨f, v⟩ := p
    have hv : v = none := hall (f, v) (List.mem_cons_self _ _)
    subst hv
    rw [List.foldl_cons]
    have hstep : toMapStep m (f, none) = m := by
      cases hc : colOf f <;> simp [toMapStep, hc]
    rw [hstep]
    exact ih m (fun q hq => hall q (List.mem_cons_of_mem _ hq))

/-! ### Lemmas about the generated change-set type -/

theorem changeSetField_name (f : StructField) (c : CSField)
    (h : changeSetField f = .ok c) : c.name = f.name := by
  cases ht : f.type with
  | basic n =>
    simp [changeSetField, ht] at h
    subst h
    rfl
  | named p n =>
    simp [changeSetField, ht] at h
    subst h
    rfl
  | other d =>
    simp [changeSetField, ht] at h

theorem genChangeSetFields_names (fields : List StructField)
    (cs : List CSField) (h : genChangeSetFields fields = .ok cs) :
    cs.map CSField.name = fields.map StructField.name := by
  induction fields generalizing cs with
  | nil =>
    simp [genChangeSetFields] at h
    subst h
    rfl
  | cons f rest ih =>
    cases hcf : changeSetField f with
    | error e => simp [genChangeSetFields, hcf] at h
    | ok c =>
      cases hr : genChangeSetFields rest with
      | error e => simp [genChangeSetFields, hcf, hr] at h
      | ok cs₀ =>
        simp [genChangeSetFields, hcf, hr] at h
        subst h
        simp [List.map_cons, changeSetField_name f c hcf, ih cs₀ hr]

theorem genChangeSetFields_error_first (pre post : List StructField)
    (f : StructField) (d : String)
    (hpre : ∀ g ∈ pre, supportedType g.type = true)
    (hf : f.type = .other d) :
    genChangeSetFields (pre ++ f :: post) =
      .error ("struct field type not hanled: " ++ d) := by
  induction pre with
  | nil =>
    simp only [List.nil_append, genChangeSetFields, changeSetField, hf]
  | cons g pre₀ ih =>
    have hg : supportedType g.type = true := hpre g (List.mem_cons_self _ _)
    have ihr : genChangeSetFields (pre₀ ++ f :: post) =
        .error ("struct field type not hanled: " ++ d) :=
      ih (fun q hq => hpre q (List.mem_cons_of_mem _ hq))
    cases ht : g.type with
    | basic n => simp [genChangeSetFields, changeSetField, ht, ihr]
    | named p n => simp [genChangeSetFields, changeSetField, ht, ihr]
    | other e =>
      rw [ht] at hg
      simp [supportedType] at hg

/-! ### splitSourceType success condition -/

theorem splitSourceType_ok_iff (s : String) :
    (∃ r, splitSourceType s = .ok r) ↔ '.' ∈ s.toList := by
  cases h : splitLastDot s.data with
  | some p =>
    obtain ⟨a, b⟩ := p
    have hsome : (splitLastDot s.toList).isSome = true := by
      show (splitLastDot s.data).isSome = true
      rw [h]
      rfl
    constructor
    · intro _
      exact (splitLastDot_isSome_iff s.toList).mp hsome
    · intro _
      exact ⟨(String.mk a, String.mk b), by simp [splitSourceType, h]⟩
  | none =>
    constructor
    · rintro ⟨r, hr⟩
      simp [splitSourceType, h] at hr
    · intro hmem
      have hsome := (splitLastDot_isSome_iff s.toList).mpr hmem
      rw [show splitLastDot s.toList = splitLastDot s.data from rfl, h] at hsome
      simp at hsome

/-! ### Claim theorems -/

/-- C1: evidence of the defect behind the claim: at identifier 0 with the
empty change-set map, the update statement UpdateProduct builds targets
the relation "gamers" filtered on column "gamer_id", not the domain
record's own "products" and "product_id" as the claim states. -/
theorem updateProduct_statement_targets_gamers :
    (@updateProductStatement Value 0 []).table = "gamers"
    ∧ (@updateProductStatement Value 0 []).whereCol = "gamer_id"
    ∧ ¬((@updateProductStatement Value 0 []).table = "products"
        ∧ (@updateProductStatement Value 0 []).whereCol = "product_id") := by
  refine ⟨rfl, rfl, fun hcontra => ?_⟩
  exact absurd hcontra.1 (by decide)

/-- C3: for every domain record value, the column mapping InsertProduct
builds has exactly one entry per tagged attribute of the Product struct,
keyed by the column name extracted from its tag, with no extra, missing
or duplicate keys. -/
theorem insertProductMap_keys_exactly_tags (product : Product) :
    keysAL (insertProductMap product) = productFields.filterMap colOf
    ∧ (keysAL (insertProductMap product)).Nodup := by
  constructor
  · rfl
  · show (["product_id", "article_number", "name", "description", "color",
      "size", "stock_availability", "price_cents", "on_sale"] :
        List String).Nodup
    decide

/-- C6: UpdateProduct returns nil exactly when execution succeeds and the
affected-row count is exactly one; every other outcome, namely execution
failure, row-count retrieval failure, or a count other than one (covering
the zero-rows case), yields an error. -/
theorem updateProduct_error_iff
    (execResult : Except String (Except String Int)) :
    updateProductFromExec execResult = none ↔ execResult = .ok (.ok 1) := by
  cases execResult with
  | error e => simp [updateProductFromExec]
  | ok r =>
    cases r with
    | error e => simp [updateProductFromExec]
    | ok n =>
      by_cases h : n = 1
      · subst h
        simp [updateProductFromExec]
      · simp [updateProductFromExec, h]

/-- C8: a generator run is idempotent on the file system: a second run on
the same unchanged type with the same environment hints writes
byte-identical content to the same derived file name, overwriting rather
than accumulating. -/
theorem runGenerator_idempotent (sourceTypeName : String)
    (structType : List StructField) (goPackage goFile : String) (fs : FS) :
    runGenerator sourceTypeName structType goPackage goFile
        (runGenerator sourceTypeName structType goPackage goFile fs)
      = runGenerator sourceTypeName structType goPackage goFile fs := by
  cases h : generate sourceTypeName structType goPackage goFile with
  | error e => simp [runGenerator, h]
  | ok out =>
    obtain ⟨fname, content⟩ := out
    simp [runGenerator, h, writeFS, setEntry_setEntry_same]

/-- C9: argument validation succeeds exactly when there is exactly one
command-line argument and it contains a dot separator; in every other
case the generator fails fatally with a diagnostic and never proceeds. -/
theorem parseArgs_ok_iff (args : List String) :
    (∃ r, parseArgs args = .ok r) ↔ ∃ s, args = [s] ∧ '.' ∈ s.toList := by
  cases args with
  | nil => simp [parseArgs]
  | cons a rest =>
    cases rest with
    | nil =>
      have hpa : parseArgs [a] = splitSourceType a := rfl
      rw [hpa, splitSourceType_ok_iff a]
      constructor
      · intro h
        exact ⟨a, rfl, h⟩
      · rintro ⟨s, hs, hdot⟩
        have : a = s := by
          simpa using hs
        subst this
        exact hdot
    | cons b rest₀ => simp [parseArgs]

/-- C10: for every argument containing a dot, splitSourceType succeeds and
splits at the last dot: the package path is everything before it, possibly
itself containing dots or empty, and the type name is everything after it
and never contains a dot. -/
theorem splitSourceType_last_dot (s : String) (h : '.' ∈ s.toList) :
    ∃ a b, splitSourceType s = .ok (a, b)
      ∧ a.toList ++ '.' :: b.toList = s.toList
      ∧ '.' ∉ b.toList := by
  have hsome : (splitLastDot s.data).isSome = true :=
    (splitLastDot_isSome_iff s.toList).mpr h
  cases hd : splitLastDot s.data with
  | none =>
    rw [hd] at hsome
    simp at hsome
  | some p =>
    obtain ⟨a, b⟩ := p
    obtain ⟨hsplit, hnd⟩ := splitLastDot_spec s.data a b hd
    refine ⟨String.mk a, String.mk b, ?_, ?_, ?_⟩
    · simp [splitSourceType, hd]
    · show a ++ '.' :: b = s.data
      exact hsplit.symm
    · exact hnd

/-- Witness for C10: splitting a dotted-domain qualified name succeeds
and yields a dot-free type name. -/
theorem splitSourceType_last_dot_witness :
    '.' ∈ "example.com/pkg.Product".toList
    ∧ ∃ a b, splitSourceType "example.com/pkg.Product" = .ok (a, b)
        ∧ a.toList ++ '.' :: b.toList = "example.com/pkg.Product".toList
        ∧ '.' ∉ b.toList :=
  ⟨by decide, splitSourceType_last_dot "example.com/pkg.Product" (by decide)⟩

/-- C2: the generated toMap is a pure function whose output mapping's key
set is exactly the set of column names (tag values) of the change-set
fields whose optional value is present, each key mapped to the
dereferenced value; a change-set with all fields unset yields the empty
mapping. Stated for structs whose fields all carry matching tags with
distinct column names, as the domain record does. -/
theorem toMapGen_keys_present_fields {α : Type}
    (changeSet : List (StructField × Option α))
    (hmatch : ∀ p ∈ changeSet, (colOf p.1).isSome = true)
    (hnodup : (allCols changeSet).Nodup) :
    (∀ k, k ∈ keysAL (toMapGen changeSet) ↔ k ∈ presentCols changeSet)
    ∧ (∀ f x c, (f, some x) ∈ changeSet → colOf f = some c →
        lookupAL (toMapGen changeSet) c = some x)
    ∧ ((∀ p ∈ changeSet, p.2 = none) → toMapGen changeSet = []) := by
  refine ⟨?_, ?_, ?_⟩
  · intro k
    have h := foldl_toMapStep_keys changeSet [] k
    simpa [toMapGen, keysAL] using h
  · intro f x c hmem hc
    exact foldl_toMapStep_lookup_found changeSet [] f x c hmem hc hnodup
  · intro hall
    exact foldl_toMapStep_all_none changeSet [] hall

/-- The change-set of the specification's worked example: only the
ArticleNumber and Name fields are set. -/
def exampleChangeSet : List (StructField × Option Value) :=
  [ (⟨"ID", "col:\"product_id\"", .named "github.com/gofrs/uuid" "UUID"⟩,
      none),
    (⟨"ArticleNumber", "col:\"article_number\"", .basic "string"⟩,
      some (.str "12345678")),
    (⟨"Name", "col:\"name\"", .basic "string"⟩,
      some (.str "Cheddar cheese")) ]

/-- Witness for C2 at the specification's example change-set. -/
theorem toMapGen_keys_present_fields_witness :
    (∀ p ∈ exampleChangeSet, (colOf p.1).isSome = true)
    ∧ (allCols exampleChangeSet).Nodup
    ∧ ((∀ k, k ∈ keysAL (toMapGen exampleChangeSet) ↔
          k ∈ presentCols exampleChangeSet)
       ∧ (∀ f x c, (f, some x) ∈ exampleChangeSet → colOf f = some c →
           lookupAL (toMapGen exampleChangeSet) c = some x)
       ∧ ((∀ p ∈ exampleChangeSet, p.2 = none) →
           toMapGen exampleChangeSet = [])) :=
  ⟨by decide, by decide,
    toMapGen_keys_present_fields exampleChangeSet (by decide) (by decide)⟩

/-- A struct field carrying no col tag, of a supported basic type. -/
def untaggedIntField : StructField := ⟨"Internal", "", .basic "int"⟩

/-- C4 counterexample: for the one-field struct whose only field has no
col tag, the generated change-set has one field although the struct has
no tagged attribute, refuting one-field-per-tagged-attribute as stated. -/
theorem changeset_fields_not_per_tagged_attribute :
    ¬(∀ (fields : List StructField) (cs : List CSField),
        genChangeSetFields fields = .ok cs →
        cs.map CSField.name =
          (fields.filter (fun f => (colOf f).isSome)).map StructField.name) := by
  intro hclaim
  have h := hclaim [untaggedIntField] [⟨"Internal", .ptrBasic "int"⟩] rfl
  exact absurd h (by decide)

/-- C4 amended: the generated change-set type has exactly one
pointer-typed field per attribute of the source struct, tagged or not, in
declaration order. -/
theorem changeset_one_field_per_attribute (fields : List StructField)
    (cs : List CSField) (h : genChangeSetFields fields = .ok cs) :
    cs.map CSField.name = fields.map StructField.name :=
  genChangeSetFields_names fields cs h

/-- Witness for C4 amended at the one-field struct without a tag. -/
theorem changeset_one_field_per_attribute_witness :
    genChangeSetFields [untaggedIntField] = .ok [⟨"Internal", .ptrBasic "int"⟩]
    ∧ ([⟨"Internal", .ptrBasic "int"⟩] : List CSField).map CSField.name
        = [untaggedIntField].map StructField.name :=
  ⟨rfl, changeset_one_field_per_attribute [untaggedIntField] _ rfl⟩

/-- C5: a field whose raw tag does not match the col pattern contributes
no entry to any output mapping of the generated conversion, in that
deleting it from the change-set leaves the toMap result unchanged, yet it
still appears as a field of the generated change-set type. -/
theorem unmatched_tag_skipped_but_kept {α : Type}
    (fv₁ fv₂ : List (StructField × Option α)) (f : StructField)
    (v : Option α) (hno : colOf f = none) :
    toMapGen (fv₁ ++ (f, v) :: fv₂) = toMapGen (fv₁ ++ fv₂)
    ∧ ∀ cs,
        genChangeSetFields ((fv₁ ++ (f, v) :: fv₂).map Prod.fst) = .ok cs →
        f.name ∈ cs.map CSField.name := by
  constructor
  · unfold toMapGen
    rw [List.foldl_append, List.foldl_append, List.foldl_cons]
    have hstep : toMapStep (List.foldl toMapStep [] fv₁) (f, v)
        = List.foldl toMapStep [] fv₁ := by
      cases v <;> simp [toMapStep, hno]
    rw [hstep]
  · intro cs hok
    have hnames := genChangeSetFields_names _ cs hok
    rw [hnames]
    simp [List.map_append, List.map_cons, List.mem_append, List.mem_cons]

/-- A tagged field of the domain record, used as surrounding context. -/
def nameField : StructField := ⟨"Name", "col:\"name\"", .basic "string"⟩

/-- A struct field whose raw tag matches no col pattern. -/
def jsonTaggedField : StructField :=
  ⟨"Audit", "json:\"audit\"", .basic "string"⟩

/-- Witness for C5: a json-tagged field between tagged fields adds
nothing to the map and still yields a change-set field. -/
theorem unmatched_tag_skipped_but_kept_witness :
    colOf jsonTaggedField = none
    ∧ (toMapGen ([(nameField, some (Value.str "Cheddar"))] ++
          (jsonTaggedField, some (Value.str "x")) :: [])
        = toMapGen ([(nameField, some (Value.str "Cheddar"))] ++ [])
       ∧ ∀ cs,
          genChangeSetFields
              (([(nameField, some (Value.str "Cheddar"))] ++
                (jsonTaggedField, some (Value.str "x")) :: []).map Prod.fst)
            = .ok cs →
          jsonTaggedField.name ∈ cs.map CSField.name) :=
  ⟨by decide,
    unmatched_tag_skipped_but_kept [(nameField, some (Value.str "Cheddar"))]
      [] jsonTaggedField (some (Value.str "x")) (by decide)⟩

/-- C7: on a struct containing an unsupported field shape, the first such
field after only supported ones, the generator run exits with code 1 and
a diagnostic naming the offending field's type descriptor, and writes no
output file. -/
theorem unsupported_shape_fatal (sourceTypeName goPackage goFile : String)
    (pre post : List StructField) (f : StructField) (d : String)
    (hpre : ∀ g ∈ pre, supportedType g.type = true)
    (hf : f.type = .other d) :
    generatorRunResult sourceTypeName (pre ++ f :: post) goPackage goFile
      = (1, none, some ("struct field type not hanled: " ++ d)) := by
  have herr := genChangeSetFields_error_first pre post f d hpre hf
  simp [generatorRunResult, generate, herr]

/-- A struct field with an unsupported slice type shape. -/
def sliceField : StructField := ⟨"Tags", "col:\"tags\"", .other "*types.Slice"⟩

/-- Witness for C7 at a one-field struct with a slice-typed field. -/
theorem unsupported_shape_fatal_witness :
    (∀ g ∈ ([] : List StructField), supportedType g.type = true)
    ∧ sliceField.type = .other "*types.Slice"
    ∧ generatorRunResult "Product" ([] ++ sliceField :: []) "repository"
        "product.go"
      = (1, none, some ("struct field type not hanled: " ++ "*types.Slice")) :=
  ⟨fun g hg => absurd hg (List.not_mem_nil g), rfl,
    unsupported_shape_fatal "Product" "repository" "product.go" [] []
      sliceField "*types.Slice" (fun g hg => absurd hg (List.not_mem_nil g))
      rfl⟩

end MetaGo
